import Mathlib

/-!
Verification development for the data-plane core of a trace viewer
(entry addressing, LOD tile resolution, deferred request accounting,
incremental search cache, interval navigation history).

Rust code is embedded shallowly:
* machine integers (`i64`, `u64`) become `Int` / `Nat`; the claims under
  study never exercise wrap-around, but division by zero and other panics
  are modelled explicitly by `Option` results (`none` = panic);
* `Vec` becomes `List`; `BTreeMap` becomes an association list with unique
  keys (the `alookup` / `modifyA` operations below mirror the
  `get`/`entry().and_modify().or_insert()` API surface used by the code);
* `BTreeSet<ItemUID>` becomes `Finset ℕ`.
-/

namespace LPV

/-! ## Generic association-list operations (model of `BTreeMap` usage) -/

/-- Lookup in an association list: the value of the first pair whose key
matches. Models `BTreeMap::get` (keys are unique in all states we build). -/
def alookup [DecidableEq κ] (m : List (κ × ν)) (k : κ) : Option ν :=
  (m.find? (fun p => decide (p.1 = k))).map Prod.snd

/-- Apply `f` to the value stored at key `k`, leaving the list unchanged if
the key is absent. Models `BTreeMap::entry(k).and_modify(f)` (without
`or_insert`). -/
def modifyA [DecidableEq κ] (m : List (κ × ν)) (k : κ) (f : ν → ν) : List (κ × ν) :=
  m.map (fun p => if p.1 = k then (p.1, f p.2) else p)

/-- Insert an empty/default value at `k` when absent. Models
`BTreeMap::entry(k).or_insert_with(default)`. -/
def insertIfAbsent [DecidableEq κ] (m : List (κ × ν)) (k : κ) (v : ν) : List (κ × ν) :=
  if (alookup m k).isSome then m else m ++ [(k, v)]

@[simp] theorem alookup_nil [DecidableEq κ] (k : κ) :
    alookup ([] : List (κ × ν)) k = none := rfl

theorem alookup_cons [DecidableEq κ] (p : κ × ν) (m : List (κ × ν)) (k : κ) :
    alookup (p :: m) k = if p.1 = k then some p.2 else alookup m k := by
  by_cases h : p.1 = k <;> simp [alookup, List.find?_cons, h]

theorem alookup_eq_none_iff [DecidableEq κ] (m : List (κ × ν)) (k : κ) :
    alookup m k = none ↔ k ∉ m.map Prod.fst := by
  induction m with
  | nil => simp
  | cons p m ih =>
    rw [alookup_cons, List.map_cons, List.mem_cons]
    by_cases h : p.1 = k
    · simp [h]
    · have h2 : ¬(k = p.1) := fun hc => h hc.symm
      simp [h, h2, ih]

theorem modifyA_eq_self_of_not_mem [DecidableEq κ] (m : List (κ × ν)) (k : κ) (f : ν → ν)
    (h : k ∉ m.map Prod.fst) : modifyA m k f = m := by
  induction m with
  | nil => rfl
  | cons p m ih =>
    rw [List.map_cons, List.mem_cons] at h
    push_neg at h
    have hp : ¬(p.1 = k) := fun hc => h.1 hc.symm
    rw [modifyA, List.map_cons, if_neg hp]
    rw [show (m.map fun q => if q.1 = k then (q.1, f q.2) else q) = modifyA m k f from rfl]
    rw [ih h.2]

@[simp] theorem modifyA_map_fst [DecidableEq κ] (m : List (κ × ν)) (k : κ) (f : ν → ν) :
    (modifyA m k f).map Prod.fst = m.map Prod.fst := by
  induction m with
  | nil => rfl
  | cons p m ih =>
    by_cases h : p.1 = k <;> simp [modifyA, h] at ih ⊢ <;> exact ih

/-- Sum of `g` over the values of an association list. -/
def asum (m : List (κ × ν)) (g : ν → Nat) : Nat :=
  (m.map (fun p => g p.2)).sum

@[simp] theorem asum_nil (g : ν → Nat) : asum ([] : List (κ × ν)) g = 0 := rfl

theorem asum_cons (p : κ × ν) (m : List (κ × ν)) (g : ν → Nat) :
    asum (p :: m) g = g p.2 + asum m g := by
  simp [asum]

theorem asum_append (m m2 : List (κ × ν)) (g : ν → Nat) :
    asum (m ++ m2) g = asum m g + asum m2 g := by
  simp [asum]

theorem asum_modifyA [DecidableEq κ] (m : List (κ × ν)) (k : κ) (f : ν → ν) (g : ν → Nat)
    (hnd : (m.map Prod.fst).Nodup) (v : ν) (hfind : alookup m k = some v) :
    asum (modifyA m k f) g + g v = asum m g + g (f v) := by
  induction m with
  | nil => simp at hfind
  | cons p m ih =>
    rw [alookup_cons] at hfind
    simp only [List.map_cons, List.nodup_cons] at hnd
    by_cases h : p.1 = k
    · simp only [if_pos h] at hfind
      cases hfind
      have hnot : k ∉ m.map Prod.fst := h ▸ hnd.1
      rw [modifyA, List.map_cons, if_pos h]
      rw [show (m.map fun q => if q.1 = k then (q.1, f q.2) else q) = modifyA m k f from rfl]
      rw [modifyA_eq_self_of_not_mem m k f hnot]
      simp [asum_cons]
      omega
    · simp only [if_neg h] at hfind
      rw [modifyA, List.map_cons, if_neg h]
      rw [show (m.map fun q => if q.1 = k then (q.1, f q.2) else q) = modifyA m k f from rfl]
      have := ih hnd.2 hfind
      simp [asum_cons]
      omega

theorem alookup_mem [DecidableEq κ] (m : List (κ × ν)) (k : κ) (v : ν)
    (h : alookup m k = some v) : (k, v) ∈ m := by
  induction m with
  | nil => simp at h
  | cons p m ih =>
    rw [alookup_cons] at h
    by_cases hp : p.1 = k
    · simp only [if_pos hp] at h
      cases h
      have hpe : p = (k, p.2) := by cases p; simp_all
      rw [← hpe]
      exact List.mem_cons_self p m
    · simp only [if_neg hp] at h
      exact List.mem_cons_of_mem _ (ih h)

/-! ## Interval and Timestamp

Modelled from the spec: the `timestamp` module is not part of the sources
under study (it is an external collaborator per the spec, §2). A
`Timestamp` is an `i64` count of nanoseconds; an `Interval` is a half-open
range `[start, stop)` with a duration `stop - start` and an overlap test. -/

structure Interval where
  start : Int
  stop : Int
deriving DecidableEq, Repr

/-- Modelled from the spec: duration of a half-open interval in ns. -/
def Interval.duration_ns (i : Interval) : Int := i.stop - i.start

/-- Modelled from the spec: overlap test for half-open ranges. -/
def Interval.overlaps (a b : Interval) : Bool :=
  decide (a.start < b.stop) && decide (b.start < a.stop)

/-! ## TileID / TileSet (data.rs) -/

/-- `TileID` wraps an `Interval`; identity derives from the bounds. -/
structure TileID where
  ival : Interval
deriving DecidableEq, Repr

/-- A ragged 2D structure: one ordered sequence of tiles per LOD level. -/
structure TileSet where
  tiles : List (List TileID)
deriving DecidableEq, Repr

/-! ## Config: the LOD tile resolver (app.rs, `Config::request_tiles`)

Only the resolver-relevant fields of `Config` are embedded; the rest of
the struct (field schema, node/kind filters, search state, data source)
does not participate in `request_tiles`. -/

structure Config where
  tile_set : TileSet
  last_request_interval : Option Interval
  request_tile_cache : List TileID
deriving DecidableEq, Repr

/-- Key computed by the closure inside `min_by_key`:
`let d = level.first().unwrap().0.duration_ns();
 if d < request_duration { request_duration / d } else { d / request_duration }`.
`none` models a panic: `first()` on an empty level, or division by zero.
Rust `i64` division truncates toward zero, hence `Int.tdiv`. -/
def levelKeyCode (request_duration : Int) (level : List TileID) : Option Int :=
  match level.head? with
  | none => none
  | some t =>
    let d := t.ival.duration_ns
    if d < request_duration then
      if d = 0 then none else some (request_duration.tdiv d)
    else
      if request_duration = 0 then none else some (d.tdiv request_duration)

/-- Rust `Iterator::min_by_key`: first element with the minimal key wins
(the fold replaces the current best only on a strictly smaller key). -/
def minByKeyFirst (pairs : List (α × Int)) : Option (α × Int) :=
  pairs.foldl
    (fun acc p =>
      match acc with
      | none => some p
      | some q => if p.2 < q.2 then some p else some q)
    none

/-- The level-selection part of `Config::request_tiles`: evaluate the key on
every level (as `min_by_key` does) and keep the first level with minimal
key. `none` models a panic. -/
def chooseLevel (tiles : List (List TileID)) (request_duration : Int) :
    Option (List TileID) :=
  match tiles.mapM (fun lvl => (levelKeyCode request_duration lvl).map (fun k => (lvl, k))) with
  | none => none
  | some pairs => (minByKeyFirst pairs).map Prod.fst

/-- `Config::request_tiles` (app.rs). Returns the tile list and the updated
config; `none` models a panic. Note the source never assigns
`last_request_interval`, so the embedding does not either. -/
def Config.request_tiles (c : Config) (request_interval : Interval) :
    Option (List TileID × Config) :=
  if c.last_request_interval = some request_interval then
    some (c.request_tile_cache, c)
  else if c.tile_set.tiles.isEmpty then
    let cache := [TileID.mk request_interval]
    some (cache, { c with request_tile_cache := cache })
  else
    match chooseLevel c.tile_set.tiles request_interval.duration_ns with
    | none => none
    | some chosen =>
      let cache := chosen.filter (fun tile => request_interval.overlaps tile.ival)
      some (cache, { c with request_tile_cache := cache })

/-! ## Spec-side formulations of the LOD level choice -/

/-- First element of the list minimizing `key`: on ties the earlier element
wins. Spec-side formulation of "choose the level minimizing this ratio
(ties resolved by iteration order — first minimum wins)". -/
def firstMinBy [LinearOrder β] (key : α → β) : List α → Option α
  | [] => none
  | x :: xs =>
    match firstMinBy key xs with
    | none => some x
    | some y => if key x ≤ key y then some x else some y

/-- Placeholder tile used only by `headD` below; every hypothesis in the
theorems guarantees it is never selected. -/
def defaultTile : TileID := ⟨⟨0, 0⟩⟩

/-- Representative (first) tile duration of a level. -/
def repDuration (lvl : List TileID) : Int := (lvl.headD defaultTile).ival.duration_ns

/-- Ratio from the spec sentence, read with exact (rational) division:
`ratio = max(requestDuration, tileDuration) / min(requestDuration, tileDuration)`. -/
def ratioRat (a b : Rat) : Rat := max a b / min a b

/-- Level choice as the claim states it, with the ratio taken over ℚ. -/
def chooseLevelSpecRat (tiles : List (List TileID)) (rd : Int) : Option (List TileID) :=
  firstMinBy (fun lvl => ratioRat (rd : Rat) ((repDuration lvl : Int) : Rat)) tiles

/-- Ratio with truncated integer division (what `i64` division computes). -/
def ratioInt (a b : Int) : Int := (max a b).tdiv (min a b)

/-- Level choice amended to integer division: for each level compute
`ratio = max(requestDuration, tileDuration) / min(requestDuration, tileDuration)`
with truncated integer division over the representative (first) tile
duration, and keep the first level minimizing it. -/
def chooseLevelSpecInt (tiles : List (List TileID)) (rd : Int) : Option (List TileID) :=
  firstMinBy (fun lvl => ratioInt rd (repDuration lvl)) tiles

/-! ### Equivalence of the `min_by_key` fold with `firstMinBy` -/

/-- Accumulator form of `firstMinBy`, mirroring the fold state. -/
def accMin (a : α × Int) (xs : List (α × Int)) : α × Int :=
  match firstMinBy Prod.snd xs with
  | none => a
  | some y => if y.2 < a.2 then y else a

theorem foldl_minStep_some (xs : List (α × Int)) (a : α × Int) :
    xs.foldl
      (fun acc p =>
        match acc with
        | none => some p
        | some q => if p.2 < q.2 then some p else some q)
      (some a) = some (accMin a xs) := by
  induction xs generalizing a with
  | nil => simp [accMin, firstMinBy]
  | cons x xs ih =>
    rw [List.foldl_cons]
    show List.foldl _ (if x.2 < a.2 then some x else some a) xs = _
    have hsplit : (if x.2 < a.2 then some x else some a) =
        some (if x.2 < a.2 then x else a) := by
      split_ifs <;> rfl
    rw [hsplit, ih]
    congr 1
    rcases hxs : firstMinBy Prod.snd xs with _ | y
    · simp only [accMin, firstMinBy, hxs]
    · simp only [accMin, firstMinBy, hxs]
      split_ifs <;> simp only [] <;> split_ifs <;> first | rfl | omega

theorem minByKeyFirst_eq_firstMinBy (pairs : List (α × Int)) :
    minByKeyFirst pairs = firstMinBy Prod.snd pairs := by
  cases pairs with
  | nil => rfl
  | cons p ps =>
    rw [minByKeyFirst, List.foldl_cons]
    show List.foldl _ (some p) ps = _
    rw [foldl_minStep_some]
    rcases hps : firstMinBy Prod.snd ps with _ | y
    · simp only [accMin, firstMinBy, hps]
    · simp only [accMin, firstMinBy, hps]
      split_ifs <;> first | rfl | omega

theorem firstMinBy_map_pair (key : α → Int) (l : List α) :
    firstMinBy Prod.snd (l.map (fun x => (x, key x))) =
      (firstMinBy key l).map (fun x => (x, key x)) := by
  induction l with
  | nil => rfl
  | cons x xs ih =>
    rw [List.map_cons]
    rcases hxs : firstMinBy key xs with _ | y
    · simp only [firstMinBy, ih, hxs, Option.map_none']
      rfl
    · simp only [firstMinBy, ih, hxs, Option.map_some']
      split_ifs <;> rfl

theorem mapM_eq_some_map {f : α → Option β} {g : α → β} (l : List α)
    (h : ∀ x ∈ l, f x = some (g x)) : l.mapM f = some (l.map g) := by
  induction l with
  | nil => rfl
  | cons x xs ih =>
    rw [List.mapM_cons, h x (List.mem_cons_self x xs),
      ih (fun y hy => h y (List.mem_cons_of_mem x hy))]
    rfl

theorem mapM_eq_none {f : α → Option β} (l : List α)
    (h : ∃ x ∈ l, f x = none) : l.mapM f = none := by
  induction l with
  | nil => simp at h
  | cons x xs ih =>
    rw [List.mapM_cons]
    rcases h with ⟨y, hy, hfy⟩
    rcases List.mem_cons.1 hy with rfl | hy2
    · rw [hfy]; rfl
    · rcases hfx : f x with _ | v
      · rfl
      · rw [ih ⟨y, hy2, hfy⟩]; rfl

theorem levelKeyCode_eq_ratioInt (rd : Int) (lvl : List TileID) (t : TileID)
    (hhead : lvl.head? = some t) (hd : 0 < t.ival.duration_ns) (hrd : 0 < rd) :
    levelKeyCode rd lvl = some (ratioInt rd (repDuration lvl)) := by
  have hrep : repDuration lvl = t.ival.duration_ns := by
    cases lvl with
    | nil => simp at hhead
    | cons a rest =>
      simp only [List.head?_cons, Option.some_inj] at hhead
      rw [repDuration, hhead]
      rfl
  rw [levelKeyCode, hhead]
  simp only
  by_cases hlt : t.ival.duration_ns < rd
  · rw [if_pos hlt, if_neg (by omega)]
    rw [ratioInt, hrep, max_eq_left hlt.le, min_eq_right hlt.le]
  · rw [if_neg hlt, if_neg (by omega)]
    push_neg at hlt
    rw [ratioInt, hrep, max_eq_right hlt, min_eq_left hlt]

/-- Tile set from the spec's worked example: three LOD levels with tile
durations 100, 10 000 and 1 000 000 ns. -/
def tileSetExample : TileSet := ⟨[[⟨⟨0, 100⟩⟩], [⟨⟨0, 10000⟩⟩], [⟨⟨0, 1000000⟩⟩]]⟩

/-- Fresh config over `tileSetExample` (memoization key unset, empty cache),
as `Config::new` initializes those fields. -/
def configExample : Config := ⟨tileSetExample, none, []⟩

/-- Config with a single LOD level, used for the zero-duration analysis. -/
def configOneLevel : Config := ⟨⟨[[⟨⟨0, 100⟩⟩]]⟩, none, []⟩

/-- C1 counterexample: with levels of representative tile duration 2 and 4
and a request of duration 3, the code (whose `min_by_key` key is the
truncated integer quotient) picks the duration-2 level (both integer keys
are 1, first wins), while the claim's ratio `max/min` read with exact
division is minimized by the duration-4 level (4/3 < 3/2). So `request_tiles`
does not minimize the exact ratio `max(requestDuration, tileDuration) /
min(requestDuration, tileDuration)`. -/
theorem C1_rational_ratio_counterexample :
    chooseLevel [[⟨⟨0, 2⟩⟩], [⟨⟨0, 4⟩⟩]] 3 = some [⟨⟨0, 2⟩⟩] ∧
    chooseLevelSpecRat [[⟨⟨0, 2⟩⟩], [⟨⟨0, 4⟩⟩]] 3 = some [⟨⟨0, 4⟩⟩] ∧
    (some [(⟨⟨0, 2⟩⟩ : TileID)] ≠ some [(⟨⟨0, 4⟩⟩ : TileID)]) := by
  refine ⟨by decide, ?_, by decide⟩
  simp only [chooseLevelSpecRat, firstMinBy, ratioRat, repDuration, defaultTile,
    Interval.duration_ns]
  norm_num

/-- C1 (amended): for every TileSet whose levels are all non-empty with
positive representative tile duration, and every request of positive
duration, `request_tiles`' level selection picks the first level minimizing
`ratio = max(requestDuration, tileDuration) / min(requestDuration,
tileDuration)` computed with truncated integer division, over each level's
representative (first) tile duration, ties resolved by iteration order; in
particular, for levels of tile-duration 100, 10 000 and 1 000 000 ns, a
request of duration 9 000 ns selects the 10 000 ns level. -/
theorem C1_request_tiles_lod_choice :
    (∀ (tiles : List (List TileID)) (rd : Int),
        (∀ lvl ∈ tiles, lvl ≠ [] ∧ 0 < repDuration lvl) →
        0 < rd →
        chooseLevel tiles rd = chooseLevelSpecInt tiles rd) ∧
    Config.request_tiles configExample ⟨0, 9000⟩ =
      some ([⟨⟨0, 10000⟩⟩],
        { configExample with request_tile_cache := [⟨⟨0, 10000⟩⟩] }) := by
  constructor
  · intro tiles rd hlvl hrd
    have hkeys : ∀ lvl ∈ tiles,
        (levelKeyCode rd lvl).map (fun k => (lvl, k)) =
          some (lvl, ratioInt rd (repDuration lvl)) := by
      intro lvl hmem
      rcases hlvl lvl hmem with ⟨hne, hdur⟩
      rcases lvl with _ | ⟨t, rest⟩
      · exact absurd rfl hne
      · have hrep : repDuration (t :: rest) = t.ival.duration_ns := rfl
        rw [levelKeyCode_eq_ratioInt rd (t :: rest) t rfl (hrep ▸ hdur) hrd]
        rfl
    unfold chooseLevel
    rw [mapM_eq_some_map tiles hkeys]
    show (minByKeyFirst
        (tiles.map (fun lvl => (lvl, ratioInt rd (repDuration lvl))))).map Prod.fst =
      chooseLevelSpecInt tiles rd
    rw [minByKeyFirst_eq_firstMinBy, firstMinBy_map_pair]
    rw [chooseLevelSpecInt]
    cases firstMinBy (fun lvl => ratioInt rd (repDuration lvl)) tiles <;> rfl
  · decide

/-- C1 witness: the general selection theorem applied to a concrete one-level
TileSet and request duration 7. -/
theorem C1_request_tiles_lod_choice_witness :
    chooseLevel [[⟨⟨0, 5⟩⟩]] 7 = chooseLevelSpecInt [[⟨⟨0, 5⟩⟩]] 7 :=
  C1_request_tiles_lod_choice.1 [[⟨⟨0, 5⟩⟩]] 7 (by decide) (by decide)

/-- C4 counterexample: with one precomputed level (tile duration 100) and a
fresh config, a request of zero duration makes the ratio computation divide
by zero. The embedding models the resulting `i64` division-by-zero panic
as `none`, so `request_tiles` does not return normally, contradicting the
claim that zero-duration requests are special-cased. -/
theorem C4_zero_duration_counterexample :
    Config.request_tiles configOneLevel ⟨5, 5⟩ = none := by decide

/-- C4 (amended): for every config whose TileSet has at least one
precomputed level with a representative tile of nonnegative duration, a
non-memoized call to `request_tiles` with a requested interval of zero
duration reaches a division by zero in the ratio computation (modelled as
`none`); no special-casing exists. -/
theorem C4_zero_duration_divide_by_zero :
    ∀ (c : Config) (ri : Interval),
      c.last_request_interval ≠ some ri →
      ri.duration_ns = 0 →
      (∃ lvl ∈ c.tile_set.tiles, ∃ t, lvl.head? = some t ∧ 0 ≤ t.ival.duration_ns) →
      Config.request_tiles c ri = none := by
  intro c ri h1 h2 h3
  rcases h3 with ⟨lvl, hmem, t, hh, hd⟩
  have hne : ¬(c.tile_set.tiles.isEmpty = true) := by
    rcases htl : c.tile_set.tiles with _ | ⟨a, rest⟩
    · rw [htl] at hmem; simp at hmem
    · simp
  have hkey : (levelKeyCode ri.duration_ns lvl).map
      (fun k => (lvl, k)) = none := by
    rw [levelKeyCode, hh]
    simp only
    rw [h2, if_neg (not_lt.2 hd), if_pos rfl]
    rfl
  have hchoose : chooseLevel c.tile_set.tiles ri.duration_ns = none := by
    unfold chooseLevel
    rw [mapM_eq_none _ ⟨lvl, hmem, hkey⟩]
  rw [Config.request_tiles, if_neg h1, if_neg hne, hchoose]

/-- C4 witness: the amended theorem applied to the concrete one-level
config and the zero-duration interval with both endpoints at 5 ns. -/
theorem C4_zero_duration_divide_by_zero_witness :
    Config.request_tiles configOneLevel ⟨5, 5⟩ = none :=
  C4_zero_duration_divide_by_zero configOneLevel ⟨5, 5⟩ (by decide) (by decide)
    ⟨[⟨⟨0, 100⟩⟩], by decide, ⟨⟨0, 100⟩⟩, by decide, by decide⟩

/-- C5 (code bug): `request_tiles` checks `last_request_interval` for a
cache hit but never assigns it, so the memoization key stays at its
`Config::new` value (`None`) forever and the cache-hit path is dead: the
first conjunct shows no successful call ever changes the key; the second
evaluates the first call on a concrete config and finds the key still
`none` afterwards, so a second identical call recomputes instead of taking
the memoized path (the results are still equal, third conjunct, because
recomputation is deterministic). -/
theorem C5_memoization_key_never_set :
    (∀ (c : Config) (ri : Interval) (r : List TileID) (c2 : Config),
        Config.request_tiles c ri = some (r, c2) →
        c2.last_request_interval = c.last_request_interval) ∧
    ((Config.request_tiles configExample ⟨0, 9000⟩).map
        (fun p => p.2.last_request_interval) = some none) ∧
    ((Config.request_tiles configExample ⟨0, 9000⟩).bind
        (fun p => (Config.request_tiles p.2 ⟨0, 9000⟩).map (fun q => (p.1, q.1))) =
      some ([⟨⟨0, 10000⟩⟩], [⟨⟨0, 10000⟩⟩])) := by
  refine ⟨?_, by decide, by decide⟩
  intro c ri r c2 h
  rw [Config.request_tiles] at h
  split_ifs at h with h1 h2
  · cases h; rfl
  · cases h; rfl
  · rcases hch : chooseLevel c.tile_set.tiles ri.duration_ns with _ | chosen
    · rw [hch] at h
      simp at h
    · rw [hch] at h
      simp only [] at h
      cases h
      rfl

/-- C5 witness: the never-updates conjunct applied to the concrete config. -/
theorem C5_memoization_key_never_set_witness :
    ({ configExample with request_tile_cache := [⟨⟨0, 10000⟩⟩] } : Config).last_request_interval =
      configExample.last_request_interval :=
  C5_memoization_key_never_set.1 configExample ⟨0, 9000⟩ [⟨⟨0, 10000⟩⟩]
    { configExample with request_tile_cache := [⟨⟨0, 10000⟩⟩] } (by decide)

/-! ## Deferred / counting data source (deferred_data.rs)

`DeferredDataSourceWrapper` turns the synchronous `DataSourceMut` API into
fetch/drain pairs: each `fetch_*` pushes the synchronously computed result
into a buffer, each `get_*` takes the whole buffer (`std::mem::take`).
The payload contents are irrelevant to request accounting, so results are
abstract tokens (`Nat`); each fetch op carries the token its underlying
data-source call would produce. `CountingDeferredDataSource` wraps this
with the `outstanding_requests : u64` counter. The `fetch_description` /
`get_description` pair bypasses `start_request`/`finish_request` entirely
(its accounting is asymmetric in the source) and is not part of the
claim's cited scope, so it is not modelled. -/

structure WrapperState where
  infos : List Nat
  summary_tiles : List Nat
  slot_tiles : List Nat
  slot_meta_tiles : List Nat
deriving DecidableEq, Repr

/-- `CountingDeferredDataSource` over a `DeferredDataSourceWrapper`. -/
structure CountingState where
  wrapper : WrapperState
  outstanding_requests : Nat
deriving DecidableEq, Repr

/-- `CountingDeferredDataSource::new`: counter starts at zero. -/
def CountingState.new : CountingState := ⟨⟨[], [], [], []⟩, 0⟩

/-- `start_request`: increment the outstanding counter. -/
def CountingState.start_request (s : CountingState) : CountingState :=
  { s with outstanding_requests := s.outstanding_requests + 1 }

/-- `finish_request`: `assert!(self.outstanding_requests >= count)` then
subtract. A failed assertion is a fatal error, modelled as `none` — never a
silent wrap. -/
def finish_request (outstanding count : Nat) : Option Nat :=
  if count ≤ outstanding then some (outstanding - count) else none

def CountingState.fetch_info (s : CountingState) (p : Nat) : CountingState :=
  let s := s.start_request
  { s with wrapper := { s.wrapper with infos := s.wrapper.infos ++ [p] } }

def CountingState.fetch_summary_tile (s : CountingState) (p : Nat) : CountingState :=
  let s := s.start_request
  { s with wrapper := { s.wrapper with summary_tiles := s.wrapper.summary_tiles ++ [p] } }

def CountingState.fetch_slot_tile (s : CountingState) (p : Nat) : CountingState :=
  let s := s.start_request
  { s with wrapper := { s.wrapper with slot_tiles := s.wrapper.slot_tiles ++ [p] } }

def CountingState.fetch_slot_meta_tile (s : CountingState) (p : Nat) : CountingState :=
  let s := s.start_request
  { s with wrapper := { s.wrapper with slot_meta_tiles := s.wrapper.slot_meta_tiles ++ [p] } }

def CountingState.get_infos (s : CountingState) : Option (List Nat × CountingState) :=
  let result := s.wrapper.infos
  let s2 := { s with wrapper := { s.wrapper with infos := [] } }
  (finish_request s2.outstanding_requests result.length).map
    (fun o => (result, { s2 with outstanding_requests := o }))

def CountingState.get_summary_tiles (s : CountingState) : Option (List Nat × CountingState) :=
  let result := s.wrapper.summary_tiles
  let s2 := { s with wrapper := { s.wrapper with summary_tiles := [] } }
  (finish_request s2.outstanding_requests result.length).map
    (fun o => (result, { s2 with outstanding_requests := o }))

def CountingState.get_slot_tiles (s : CountingState) : Option (List Nat × CountingState) :=
  let result := s.wrapper.slot_tiles
  let s2 := { s with wrapper := { s.wrapper with slot_tiles := [] } }
  (finish_request s2.outstanding_requests result.length).map
    (fun o => (result, { s2 with outstanding_requests := o }))

def CountingState.get_slot_meta_tiles (s : CountingState) : Option (List Nat × CountingState) :=
  let result := s.wrapper.slot_meta_tiles
  let s2 := { s with wrapper := { s.wrapper with slot_meta_tiles := [] } }
  (finish_request s2.outstanding_requests result.length).map
    (fun o => (result, { s2 with outstanding_requests := o }))

/-- One operation against the counting data source (the four
`start_request`/`finish_request` fetch/drain pairs). -/
inductive DSOp where
  | fetchInfo (p : Nat)
  | getInfos
  | fetchSummaryTile (p : Nat)
  | getSummaryTiles
  | fetchSlotTile (p : Nat)
  | getSlotTiles
  | fetchSlotMetaTile (p : Nat)
  | getSlotMetaTiles
deriving DecidableEq, Repr

def applyDSOp (op : DSOp) (s : CountingState) : Option CountingState :=
  match op with
  | .fetchInfo p => some (s.fetch_info p)
  | .getInfos => (s.get_infos).map Prod.snd
  | .fetchSummaryTile p => some (s.fetch_summary_tile p)
  | .getSummaryTiles => (s.get_summary_tiles).map Prod.snd
  | .fetchSlotTile p => some (s.fetch_slot_tile p)
  | .getSlotTiles => (s.get_slot_tiles).map Prod.snd
  | .fetchSlotMetaTile p => some (s.fetch_slot_meta_tile p)
  | .getSlotMetaTiles => (s.get_slot_meta_tiles).map Prod.snd

def runDSOps : List DSOp → CountingState → Option CountingState
  | [], s => some s
  | op :: ops, s => (applyDSOp op s).bind (runDSOps ops)

/-- N successive `fetch_slot_tile` calls, one per payload token. -/
def fetchSlotN (ps : List Nat) (s : CountingState) : CountingState :=
  ps.foldl CountingState.fetch_slot_tile s

/-- Total number of buffered (fetched, not yet drained) results. -/
def bufSum (s : CountingState) : Nat :=
  s.wrapper.infos.length + s.wrapper.summary_tiles.length +
    s.wrapper.slot_tiles.length + s.wrapper.slot_meta_tiles.length

/-- Buffered results never exceed the outstanding counter: every buffered
result was pushed by a fetch that also incremented the counter. -/
def CountInv (s : CountingState) : Prop :=
  bufSum s ≤ s.outstanding_requests

theorem fetchSlotN_spec (ps : List Nat) (s : CountingState) :
    (fetchSlotN ps s).outstanding_requests = s.outstanding_requests + ps.length ∧
    (fetchSlotN ps s).wrapper.slot_tiles = s.wrapper.slot_tiles ++ ps := by
  induction ps generalizing s with
  | nil => simp [fetchSlotN]
  | cons p ps ih =>
    rcases ih (s.fetch_slot_tile p) with ⟨h1, h2⟩
    refine ⟨?_, ?_⟩
    · rw [show fetchSlotN (p :: ps) s = fetchSlotN ps (s.fetch_slot_tile p) from rfl, h1]
      simp [CountingState.fetch_slot_tile, CountingState.start_request]
      omega
    · rw [show fetchSlotN (p :: ps) s = fetchSlotN ps (s.fetch_slot_tile p) from rfl, h2]
      simp [CountingState.fetch_slot_tile, CountingState.start_request]

theorem get_infos_spec (s : CountingState)
    (h : s.wrapper.infos.length ≤ s.outstanding_requests) :
    s.get_infos = some (s.wrapper.infos,
      { wrapper := { s.wrapper with infos := [] },
        outstanding_requests := s.outstanding_requests - s.wrapper.infos.length }) := by
  unfold CountingState.get_infos finish_request
  simp only [if_pos h, Option.map_some']

theorem get_summary_tiles_spec (s : CountingState)
    (h : s.wrapper.summary_tiles.length ≤ s.outstanding_requests) :
    s.get_summary_tiles = some (s.wrapper.summary_tiles,
      { wrapper := { s.wrapper with summary_tiles := [] },
        outstanding_requests := s.outstanding_requests - s.wrapper.summary_tiles.length }) := by
  unfold CountingState.get_summary_tiles finish_request
  simp only [if_pos h, Option.map_some']

theorem get_slot_tiles_spec (s : CountingState)
    (h : s.wrapper.slot_tiles.length ≤ s.outstanding_requests) :
    s.get_slot_tiles = some (s.wrapper.slot_tiles,
      { wrapper := { s.wrapper with slot_tiles := [] },
        outstanding_requests := s.outstanding_requests - s.wrapper.slot_tiles.length }) := by
  unfold CountingState.get_slot_tiles finish_request
  simp only [if_pos h, Option.map_some']

theorem get_slot_meta_tiles_spec (s : CountingState)
    (h : s.wrapper.slot_meta_tiles.length ≤ s.outstanding_requests) :
    s.get_slot_meta_tiles = some (s.wrapper.slot_meta_tiles,
      { wrapper := { s.wrapper with slot_meta_tiles := [] },
        outstanding_requests := s.outstanding_requests - s.wrapper.slot_meta_tiles.length }) := by
  unfold CountingState.get_slot_meta_tiles finish_request
  simp only [if_pos h, Option.map_some']

theorem applyDSOp_preserves_inv (op : DSOp) (s s2 : CountingState)
    (hinv : CountInv s) (h : applyDSOp op s = some s2) : CountInv s2 := by
  unfold CountInv bufSum at hinv
  cases op
  case fetchInfo p =>
    rw [applyDSOp] at h
    cases h
    unfold CountInv bufSum CountingState.fetch_info CountingState.start_request
    simp
    omega
  case fetchSummaryTile p =>
    rw [applyDSOp] at h
    cases h
    unfold CountInv bufSum CountingState.fetch_summary_tile CountingState.start_request
    simp
    omega
  case fetchSlotTile p =>
    rw [applyDSOp] at h
    cases h
    unfold CountInv bufSum CountingState.fetch_slot_tile CountingState.start_request
    simp
    omega
  case fetchSlotMetaTile p =>
    rw [applyDSOp] at h
    cases h
    unfold CountInv bufSum CountingState.fetch_slot_meta_tile CountingState.start_request
    simp
    omega
  case getInfos =>
    rw [applyDSOp, get_infos_spec s (by omega)] at h
    cases h
    unfold CountInv bufSum
    simp
    omega
  case getSummaryTiles =>
    rw [applyDSOp, get_summary_tiles_spec s (by omega)] at h
    cases h
    unfold CountInv bufSum
    simp
    omega
  case getSlotTiles =>
    rw [applyDSOp, get_slot_tiles_spec s (by omega)] at h
    cases h
    unfold CountInv bufSum
    simp
    omega
  case getSlotMetaTiles =>
    rw [applyDSOp, get_slot_meta_tiles_spec s (by omega)] at h
    cases h
    unfold CountInv bufSum
    simp
    omega

theorem applyDSOp_ne_none (op : DSOp) (s : CountingState) (hinv : CountInv s) :
    applyDSOp op s ≠ none := by
  unfold CountInv bufSum at hinv
  cases op
  case fetchInfo p => rw [applyDSOp]; simp
  case fetchSummaryTile p => rw [applyDSOp]; simp
  case fetchSlotTile p => rw [applyDSOp]; simp
  case fetchSlotMetaTile p => rw [applyDSOp]; simp
  case getInfos => rw [applyDSOp, get_infos_spec s (by omega)]; simp
  case getSummaryTiles => rw [applyDSOp, get_summary_tiles_spec s (by omega)]; simp
  case getSlotTiles => rw [applyDSOp, get_slot_tiles_spec s (by omega)]; simp
  case getSlotMetaTiles => rw [applyDSOp, get_slot_meta_tiles_spec s (by omega)]; simp

/-- C2: request accounting of the counting data source. (1) After N
`fetch_slot_tile` calls from any state whose slot-tile buffer is empty, a
single `get_slot_tiles` drain returns all N results and the outstanding
counter returns to its pre-fetch value. (2) A drain returning zero
completions leaves the state (and so the counter) unchanged. (3) From the
initial state, no sequence of fetch/drain operations ever trips the
`finish_request` assertion. (4) A drain whose batch would exceed the
counter is a fatal assertion failure (`none`), never a silent wrap. -/
theorem C2_counting_request_accounting :
    (∀ (s : CountingState) (ps : List Nat),
        s.wrapper.slot_tiles = [] →
        ∃ r s2, (fetchSlotN ps s).get_slot_tiles = some (r, s2) ∧
          r.length = ps.length ∧
          s2.outstanding_requests = s.outstanding_requests) ∧
    (∀ s : CountingState, s.wrapper.slot_tiles = [] →
        s.get_slot_tiles = some ([], s)) ∧
    (∀ ops : List DSOp, runDSOps ops CountingState.new ≠ none) ∧
    (∀ s : CountingState,
        s.outstanding_requests < s.wrapper.slot_tiles.length →
        s.get_slot_tiles = none) := by
  refine ⟨?_, ?_, ?_, ?_⟩
  · intro s ps hempty
    rcases fetchSlotN_spec ps s with ⟨h1, h2⟩
    rw [hempty, List.nil_append] at h2
    refine ⟨(fetchSlotN ps s).wrapper.slot_tiles,
      { wrapper := { (fetchSlotN ps s).wrapper with slot_tiles := [] },
        outstanding_requests := (fetchSlotN ps s).outstanding_requests -
          (fetchSlotN ps s).wrapper.slot_tiles.length },
      get_slot_tiles_spec _ (by rw [h1, h2]; omega), by rw [h2], ?_⟩
    simp only [h1, h2]
    omega
  · intro s hempty
    rcases s with ⟨⟨i, st, slt, smt⟩, o⟩
    simp only at hempty
    subst hempty
    rw [get_slot_tiles_spec _ (by simp)]
    simp
  · have key : ∀ (ops : List DSOp) (s : CountingState),
        CountInv s → runDSOps ops s ≠ none := by
      intro ops
      induction ops with
      | nil =>
        intro s _ h
        simp [runDSOps] at h
      | cons op ops ih =>
        intro s hinv
        rw [runDSOps]
        rcases happ : applyDSOp op s with _ | s2
        · exact absurd happ (applyDSOp_ne_none op s hinv)
        · rw [Option.some_bind]
          exact ih s2 (applyDSOp_preserves_inv op s s2 hinv happ)
    intro ops
    refine key ops CountingState.new ?_
    unfold CountInv bufSum CountingState.new
    simp
  · intro s h
    have hneg : ¬(s.wrapper.slot_tiles.length ≤ s.outstanding_requests) := by omega
    simp only [CountingState.get_slot_tiles, finish_request, if_neg hneg, Option.map_none']

/-- C2 witness: two fetches then one drain from the fresh state returns
both results and the counter returns to zero. -/
theorem C2_counting_request_accounting_witness :
    ∃ r s2, (fetchSlotN [7, 8] CountingState.new).get_slot_tiles = some (r, s2) ∧
      r.length = ([7, 8] : List Nat).length ∧
      s2.outstanding_requests = CountingState.new.outstanding_requests :=
  C2_counting_request_accounting.1 CountingState.new [7, 8] rfl

/-! ## EntryID (data.rs)

An `EntryID` is a sequence of `i64`, one per tree level; `-1` is the
summary sentinel, any nonnegative value a slot index. `u64` indices always
fit the claims' range, so `child` pushes the index as-is. -/

structure EntryID where
  path : List Int
deriving DecidableEq, Repr

inductive EntryIndex where
  | Summary
  | Slot (i : Nat)
deriving DecidableEq, Repr

def EntryID.root : EntryID := ⟨[]⟩

def EntryID.summary (e : EntryID) : EntryID := ⟨e.path ++ [-1]⟩

def EntryID.child (e : EntryID) (i : Nat) : EntryID := ⟨e.path ++ [(i : Int)]⟩

def EntryID.level (e : EntryID) : Nat := e.path.length

/-- `slot_index`: the element at `level`, only if it converts to `u64`
(i.e. is nonnegative); `None` both past the end and on the sentinel. -/
def EntryID.slot_index (e : EntryID) (level : Nat) : Option Nat :=
  (e.path.get? level).bind Int.toNat'

/-- `index`: classify the element at `level`; the `u64` conversion failing
(`try_into().map_or(Summary, Slot)`) means the sentinel. -/
def EntryID.index (e : EntryID) (level : Nat) : Option EntryIndex :=
  (e.path.get? level).map (fun x =>
    match Int.toNat' x with
    | some n => EntryIndex.Slot n
    | none => EntryIndex.Summary)

/-! ## Search engine state (app.rs, `SearchState`) -/

/-- `FieldID` is an opaque identifier from the field schema. -/
abbrev FieldID := Nat

/-- Field values attachable to an item (data.rs). -/
inductive Field where
  | I64 (v : Int)
  | U64 (v : Nat)
  | String (v : String)
  | Interval (v : Interval)
  | Empty
deriving DecidableEq, Repr

/-- Item metadata as delivered in a slot-meta tile (data.rs `ItemMeta`);
`ItemUID` is its `u64` payload. -/
structure ItemMeta where
  item_uid : Nat
  original_interval : Interval
  title : String
  fields : List (String × Field)
deriving DecidableEq, Repr

/-- Cached display record for one search result (app.rs `SearchCacheItem`). -/
structure SearchCacheItem where
  item_uid : Nat
  irow : Nat
  interval : Interval
  title : String
deriving DecidableEq, Repr

/-- Innermost search-cache level: ItemUID → SearchCacheItem. -/
abbrev Bucket := List (Nat × SearchCacheItem)

/-- Middle level: TileID → bucket. -/
abbrev TileCache := List (TileID × Bucket)

/-- Outer level: EntryID → tile cache. -/
abbrev ResultCache := List (EntryID × TileCache)

/-- Navigation origin tag for the interval history (app.rs). -/
inductive IntervalOrigin where
  | Zoom
  | Pan
deriving DecidableEq, Repr

/-- Undo/redo stack of view intervals (app.rs `IntervalState`). -/
structure IntervalState where
  levels : List Interval
  origins : List IntervalOrigin
  index : Nat
deriving DecidableEq, Repr

/-- `IntervalState::default()`: empty stacks, index 0. -/
def IntervalState.initial : IntervalState := ⟨[], [], 0⟩

/-- The parts of the per-frame `Context` the embedded operations read
(app.rs `Context`): the visible time range and the navigation history. -/
structure Context where
  view_interval : Interval
  view_interval_history : IntervalState
deriving DecidableEq, Repr

structure SearchState where
  title_field : FieldID
  query : String
  last_query : String
  include_collapsed_entries : Bool
  last_include_collapsed_entries : Bool
  search_field : FieldID
  last_search_field : FieldID
  last_view_interval : Option Interval
  result_set : Finset Nat
  result_cache : ResultCache
  entry_tree : List (Nat × List (Nat × List Nat))
deriving DecidableEq

/-- `SearchState::new`. -/
def SearchState.new (title_id : FieldID) : SearchState :=
  ⟨title_id, "", "", false, false, title_id, title_id, none, ∅, [], []⟩

/-- `SearchState::clear`. -/
def SearchState.clear (s : SearchState) : SearchState :=
  { s with result_set := ∅, result_cache := [], entry_tree := [] }

/-- `SearchState::ensure_valid_cache`: the four sequential invalidation
checks, each re-baselining its own `last*` field when it fires, then one
`clear` if any fired. -/
def SearchState.ensure_valid_cache (s : SearchState) (cx : Context) : SearchState :=
  let b1 := s.query ≠ s.last_query
  let s := if b1 then { s with last_query := s.query } else s
  let b2 := s.search_field ≠ s.last_search_field
  let s := if b2 then { s with last_search_field := s.search_field } else s
  let b3 := s.include_collapsed_entries ≠ s.last_include_collapsed_entries ∧
    s.include_collapsed_entries = false
  let s := if b3 then
    { s with last_include_collapsed_entries := s.include_collapsed_entries } else s
  let b4 := s.last_view_interval ≠ some cx.view_interval
  let s := if b4 then { s with last_view_interval := some cx.view_interval } else s
  if b1 ∨ b2 ∨ b3 ∨ b4 then s.clear else s

/-- The invalidation condition as the spec words it: (a) the query string
changed, (b) the active search field changed, (c) `includeCollapsedEntries`
transitioned from true to false, or (d) the view interval changed. -/
def specInvalidate (s : SearchState) (cx : Context) : Prop :=
  s.query ≠ s.last_query ∨
  s.search_field ≠ s.last_search_field ∨
  (s.last_include_collapsed_entries = true ∧ s.include_collapsed_entries = false) ∨
  s.last_view_interval ≠ some cx.view_interval

instance (s : SearchState) (cx : Context) : Decidable (specInvalidate s cx) := by
  unfold specInvalidate
  infer_instance

def MAX_SEARCH_RESULTS : Nat := 100000

/-- `SearchState::start_entry`: stop at the cap; otherwise make sure the
entry has a (possibly empty) cache bucket and continue. -/
def SearchState.start_entry (s : SearchState) (e : EntryID) : Bool × SearchState :=
  if MAX_SEARCH_RESULTS ≤ s.result_set.card then (false, s)
  else (true, { s with result_cache := insertIfAbsent s.result_cache e [] })

/-- `SearchState::start_tile`: stop at the cap; report `false` when the
(entry, tile) pair was already indexed, else create its empty bucket. The
`unwrap` on a missing entry is a panic (`none`). -/
def SearchState.start_tile (s : SearchState) (e : EntryID) (t : TileID) :
    Option (Bool × SearchState) :=
  if MAX_SEARCH_RESULTS ≤ s.result_set.card then some (false, s)
  else
    match alookup s.result_cache e with
    | none => none
    | some cache =>
      match alookup cache t with
      | some _ => some (false, s)
      | none => some (true,
          { s with result_cache := modifyA s.result_cache e (fun c => c ++ [(t, [])]) })

/-- `SearchState::insert`: stop at the cap; add the item UID to the flat
set (at most once); on first insertion record the display-cache entry in
the (entry, tile) bucket. The `unwrap`s on missing buckets are panics. -/
def SearchState.insert (s : SearchState) (e : EntryID) (t : TileID)
    (irow : Nat) (item : ItemMeta) : Option SearchState :=
  if MAX_SEARCH_RESULTS ≤ s.result_set.card then some s
  else if item.item_uid ∈ s.result_set then some s
  else
    let s2 := { s with result_set := Insert.insert item.item_uid s.result_set }
    match alookup s2.result_cache e with
    | none => none
    | some cache =>
      match alookup cache t with
      | none => none
      | some bucket =>
        let bucket2 :=
          if (alookup bucket item.item_uid).isSome then bucket
          else bucket ++ [(item.item_uid,
            ⟨item.item_uid, irow, item.original_interval, item.title⟩)]
        some { s2 with
          result_cache :=
            modifyA s2.result_cache e (fun c => modifyA c t (fun _ => bucket2)) }

/-- One search-cache operation, as listed in the reachability claims. -/
inductive SOp where
  | clear
  | ensure (cx : Context)
  | startEntry (e : EntryID)
  | startTile (e : EntryID) (t : TileID)
  | insertItem (e : EntryID) (t : TileID) (irow : Nat) (item : ItemMeta)

def applySOp : SOp → SearchState → Option SearchState
  | .clear, s => some s.clear
  | .ensure cx, s => some (s.ensure_valid_cache cx)
  | .startEntry e, s => some (s.start_entry e).2
  | .startTile e t, s => (s.start_tile e t).map Prod.snd
  | .insertItem e t irow item, s => s.insert e t irow item

def runSOps : List SOp → SearchState → Option SearchState
  | [], s => some s
  | op :: ops, s => (applySOp op s).bind (runSOps ops)

/-- `ensure_valid_cache` either clears all three caches or leaves all three
untouched — there is no partial clearing. -/
theorem ensure_caches_dichotomy (s : SearchState) (cx : Context) :
    ((s.ensure_valid_cache cx).result_set = ∅ ∧
     (s.ensure_valid_cache cx).result_cache = [] ∧
     (s.ensure_valid_cache cx).entry_tree = []) ∨
    ((s.ensure_valid_cache cx).result_set = s.result_set ∧
     (s.ensure_valid_cache cx).result_cache = s.result_cache ∧
     (s.ensure_valid_cache cx).entry_tree = s.entry_tree) := by
  unfold SearchState.ensure_valid_cache SearchState.clear
  simp only []
  split_ifs <;> simp

/-- C3: `ensure_valid_cache` clears the result set, result cache and entry
tree when (a) the query changed, (b) the search field changed, (c)
`include_collapsed_entries` went true→false, or (d) the view interval
changed; when none of (a)–(d) holds it returns the state entirely
unchanged (so a false→true transition of `include_collapsed_entries`
alone, third conjunct, leaves all caches unchanged). -/
theorem C3_ensure_valid_cache_invalidation :
    ∀ (s : SearchState) (cx : Context),
      (specInvalidate s cx →
        (s.ensure_valid_cache cx).result_set = ∅ ∧
        (s.ensure_valid_cache cx).result_cache = [] ∧
        (s.ensure_valid_cache cx).entry_tree = []) ∧
      (¬specInvalidate s cx → s.ensure_valid_cache cx = s) ∧
      (s.query = s.last_query → s.search_field = s.last_search_field →
        s.last_include_collapsed_entries = false →
        s.include_collapsed_entries = true →
        s.last_view_interval = some cx.view_interval →
        s.ensure_valid_cache cx = s) := by
  intro s cx
  have part2 : ¬specInvalidate s cx → s.ensure_valid_cache cx = s := by
    intro h
    unfold specInvalidate at h
    push_neg at h
    unfold SearchState.ensure_valid_cache
    simp only []
    split_ifs <;> simp_all
  refine ⟨?_, part2, ?_⟩
  · intro h
    unfold specInvalidate at h
    unfold SearchState.ensure_valid_cache SearchState.clear
    simp only []
    split_ifs <;> simp_all
  · intro h1 h2 h3 h4 h5
    refine part2 ?_
    unfold specInvalidate
    push_neg
    exact ⟨h1, h2, fun hc => absurd (h3.symm.trans hc) (by decide), h5⟩

/-- C3 witness: a false→true transition of `include_collapsed_entries`
alone (query, field and view interval unchanged) leaves the state — with a
non-empty result set — untouched. -/
theorem C3_ensure_valid_cache_invalidation_witness :
    ({ SearchState.new 0 with
        include_collapsed_entries := true,
        last_include_collapsed_entries := false,
        last_view_interval := some ⟨0, 10⟩,
        result_set := {5} } : SearchState).ensure_valid_cache ⟨⟨0, 10⟩, IntervalState.initial⟩ =
      { SearchState.new 0 with
        include_collapsed_entries := true,
        last_include_collapsed_entries := false,
        last_view_interval := some ⟨0, 10⟩,
        result_set := {5} } :=
  (C3_ensure_valid_cache_invalidation _ _).2.2 rfl rfl rfl rfl rfl

/-- Every single operation keeps the result set at or below the cap. -/
theorem applySOp_card_le (op : SOp) (s s2 : SearchState)
    (h : applySOp op s = some s2)
    (hcard : s.result_set.card ≤ MAX_SEARCH_RESULTS) :
    s2.result_set.card ≤ MAX_SEARCH_RESULTS := by
  cases op
  case clear =>
    rw [applySOp] at h
    cases h
    simp [SearchState.clear]
  case ensure cx =>
    rw [applySOp] at h
    cases h
    rcases ensure_caches_dichotomy s cx with ⟨h1, _, _⟩ | ⟨h1, _, _⟩ <;> rw [h1]
    · simp
    · exact hcard
  case startEntry e =>
    rw [applySOp, SearchState.start_entry] at h
    split_ifs at h <;> cases h <;> simpa
  case startTile e t =>
    rw [applySOp, SearchState.start_tile] at h
    split_ifs at h
    · simp only [Option.map_some'] at h
      cases h
      exact hcard
    · rcases halk : alookup s.result_cache e with _ | cache <;>
        simp only [halk, Option.map_some', Option.map_none'] at h
      · exact Option.noConfusion h
      · rcases halk2 : alookup cache t with _ | bucket <;>
          simp only [halk2, Option.map_some', Option.map_none'] at h <;>
          cases h <;> exact hcard
  case insertItem e t irow item =>
    rw [applySOp, SearchState.insert] at h
    split_ifs at h with hcap hmem
    · cases h
      exact hcard
    · cases h
      exact hcard
    · simp only [] at h
      rcases halk : alookup s.result_cache e with _ | cache <;> simp only [halk] at h
      · exact Option.noConfusion h
      · rcases halk2 : alookup cache t with _ | bucket <;> simp only [halk2] at h
        · exact Option.noConfusion h
        · cases h
          have hle := Finset.card_insert_le item.item_uid s.result_set
          show (Insert.insert item.item_uid s.result_set).card ≤ MAX_SEARCH_RESULTS
          omega

/-- C6: over every operation sequence from the fresh state the result set
never exceeds `MAX_SEARCH_RESULTS` (100 000) distinct item identifiers,
and once the cap is reached `start_entry` and `start_tile` both report
"stop" (`false`) without touching the state, and `insert` returns the
state unchanged. -/
theorem C6_search_result_cap :
    (∀ (tid : FieldID) (ops : List SOp) (s : SearchState),
        runSOps ops (SearchState.new tid) = some s →
        s.result_set.card ≤ MAX_SEARCH_RESULTS) ∧
    (∀ (s : SearchState) (e : EntryID),
        MAX_SEARCH_RESULTS ≤ s.result_set.card →
        s.start_entry e = (false, s)) ∧
    (∀ (s : SearchState) (e : EntryID) (t : TileID),
        MAX_SEARCH_RESULTS ≤ s.result_set.card →
        s.start_tile e t = some (false, s)) ∧
    (∀ (s : SearchState) (e : EntryID) (t : TileID) (irow : Nat) (item : ItemMeta),
        MAX_SEARCH_RESULTS ≤ s.result_set.card →
        s.insert e t irow item = some s) := by
  refine ⟨?_, ?_, ?_, ?_⟩
  · intro tid ops
    have key : ∀ (s0 s : SearchState),
        s0.result_set.card ≤ MAX_SEARCH_RESULTS →
        runSOps ops s0 = some s → s.result_set.card ≤ MAX_SEARCH_RESULTS := by
      induction ops with
      | nil =>
        intro s0 s h0 h
        rw [runSOps] at h
        cases h
        exact h0
      | cons op ops ih =>
        intro s0 s h0 h
        rw [runSOps] at h
        rcases happ : applySOp op s0 with _ | s1 <;> rw [happ] at h
        · simp at h
        · rw [Option.some_bind] at h
          exact ih s1 s (applySOp_card_le op s0 s1 happ h0) h
    intro s h
    exact key (SearchState.new tid) s (by simp [SearchState.new]) h
  · intro s e hcap
    rw [SearchState.start_entry, if_pos hcap]
  · intro s e t hcap
    rw [SearchState.start_tile, if_pos hcap]
  · intro s e t irow item hcap
    rw [SearchState.insert, if_pos hcap]

/-- A state whose result set already holds exactly `MAX_SEARCH_RESULTS`
distinct identifiers. -/
def cappedSearchState : SearchState :=
  { SearchState.new 0 with result_set := Finset.range MAX_SEARCH_RESULTS }

/-- C6 witness: at the capped state, `start_entry` reports "stop" and
leaves the state unchanged. -/
theorem C6_search_result_cap_witness :
    cappedSearchState.start_entry EntryID.root = (false, cappedSearchState) :=
  C6_search_result_cap.2.1 cappedSearchState EntryID.root
    (by simp [cappedSearchState])

/-! ## Flat-set / nested-cache correspondence (C7) -/

/-- Does a bucket hold an entry for `uid`? -/
def bucketHas (b : Bucket) (uid : Nat) : Bool := (alookup b uid).isSome

/-- Number of tile buckets of one entry that hold `uid`. -/
def tileCount (c : TileCache) (uid : Nat) : Nat :=
  asum c (fun b => if bucketHas b uid then 1 else 0)

/-- Number of (entry, tile) buckets of the whole result cache holding `uid`. -/
def cacheCount (rc : ResultCache) (uid : Nat) : Nat :=
  asum rc (fun c => tileCount c uid)

/-- Key uniqueness of the nested cache, as the `BTreeMap`s guarantee. -/
def CacheWF (rc : ResultCache) : Prop :=
  (rc.map Prod.fst).Nodup ∧ ∀ p ∈ rc, (p.2.map Prod.fst).Nodup

/-- The claimed invariant plus the strengthening that drives the induction:
an absent identifier sits in no bucket at all. -/
def SearchInv (s : SearchState) : Prop :=
  ∀ uid, (uid ∈ s.result_set → cacheCount s.result_cache uid = 1) ∧
    (uid ∉ s.result_set → cacheCount s.result_cache uid = 0)

theorem alookup_append_of_none [DecidableEq κ] (m m2 : List (κ × ν)) (k : κ)
    (h : alookup m k = none) : alookup (m ++ m2) k = alookup m2 k := by
  induction m with
  | nil => simp
  | cons p m ih =>
    rw [alookup_cons] at h
    rw [List.cons_append, alookup_cons]
    by_cases hp : p.1 = k
    · rw [if_pos hp] at h
      exact absurd h (by simp)
    · rw [if_neg hp] at h
      rw [if_neg hp]
      exact ih h

theorem alookup_append_of_some [DecidableEq κ] (m m2 : List (κ × ν)) (k : κ) (v : ν)
    (h : alookup m k = some v) : alookup (m ++ m2) k = some v := by
  induction m with
  | nil => simp at h
  | cons p m ih =>
    rw [alookup_cons] at h
    rw [List.cons_append, alookup_cons]
    by_cases hp : p.1 = k
    · rw [if_pos hp] at h ⊢
      exact h
    · rw [if_neg hp] at h ⊢
      exact ih h

theorem alookup_singleton_ne [DecidableEq κ] (k k2 : κ) (v : ν) (h : k ≠ k2) :
    alookup [(k, v)] k2 = none := by
  rw [show [(k, v)] = (k, v) :: ([] : List (κ × ν)) from rfl, alookup_cons]
  rw [if_neg h]
  rfl

theorem alookup_singleton_self [DecidableEq κ] (k : κ) (v : ν) :
    alookup [(k, v)] k = some v := by
  rw [show [(k, v)] = (k, v) :: ([] : List (κ × ν)) from rfl, alookup_cons]
  rw [if_pos rfl]

theorem alookup_unique [DecidableEq κ] (m : List (κ × ν)) (k : κ) (v w : ν)
    (hnd : (m.map Prod.fst).Nodup) (hfind : alookup m k = some v)
    (hmem : (k, w) ∈ m) : w = v := by
  induction m with
  | nil => simp at hmem
  | cons p m ih =>
    rw [alookup_cons] at hfind
    rw [List.map_cons, List.nodup_cons] at hnd
    rcases List.mem_cons.1 hmem with heq | hmem2
    · rw [← heq] at hfind
      rw [if_pos rfl] at hfind
      exact Option.some_inj.1 hfind
    · by_cases hp : p.1 = k
      · exact absurd (hp ▸ (List.mem_map_of_mem Prod.fst hmem2)) hnd.1
      · rw [if_neg hp] at hfind
        exact ih hnd.2 hfind hmem2

theorem mem_modifyA [DecidableEq κ] (m : List (κ × ν)) (k : κ) (f : ν → ν)
    (p : κ × ν) (h : p ∈ modifyA m k f) :
    (p ∈ m ∧ p.1 ≠ k) ∨ (∃ w, (k, w) ∈ m ∧ p = (k, f w)) := by
  rcases List.mem_map.1 h with ⟨q, hq, heq⟩
  by_cases hk : q.1 = k
  · right
    refine ⟨q.2, ?_, ?_⟩
    · rw [← hk]
      exact hq
    · rw [← heq, if_pos hk, hk]
  · left
    rw [← heq, if_neg hk]
    exact ⟨hq, hk⟩

theorem asum_eq_zero_iff (m : List (κ × ν)) (g : ν → Nat) :
    asum m g = 0 ↔ ∀ p ∈ m, g p.2 = 0 := by
  unfold asum
  rw [List.sum_eq_zero_iff]
  constructor
  · intro h p hp
    exact h (g p.2) (List.mem_map_of_mem _ hp)
  · intro h x hx
    rcases List.mem_map.1 hx with ⟨p, hp, heq⟩
    rw [← heq]
    exact h p hp

theorem cacheCount_zero_bucketHas (rc : ResultCache) (uid : Nat)
    (hc : cacheCount rc uid = 0) (e : EntryID) (cache : TileCache)
    (h1 : alookup rc e = some cache) (t : TileID) (bucket : Bucket)
    (h2 : alookup cache t = some bucket) : bucketHas bucket uid = false := by
  have hm1 : (e, cache) ∈ rc := alookup_mem rc e cache h1
  have htc : tileCount cache uid = 0 :=
    (asum_eq_zero_iff rc (fun c => tileCount c uid)).1 hc (e, cache) hm1
  have hm2 : (t, bucket) ∈ cache := alookup_mem cache t bucket h2
  have hz := (asum_eq_zero_iff cache (fun b => if bucketHas b uid then 1 else 0)).1 htc
    (t, bucket) hm2
  by_cases hb : bucketHas bucket uid = true
  · rw [if_pos hb] at hz
    exact absurd hz one_ne_zero
  · simpa using hb

theorem tileCount_append_single (c : TileCache) (t : TileID) (b : Bucket) (uid : Nat) :
    tileCount (c ++ [(t, b)]) uid =
      tileCount c uid + (if bucketHas b uid then 1 else 0) := by
  unfold tileCount
  rw [asum_append]
  rfl

theorem cacheCount_append_single (rc : ResultCache) (e : EntryID) (c : TileCache) (uid : Nat) :
    cacheCount (rc ++ [(e, c)]) uid = cacheCount rc uid + tileCount c uid := by
  unfold cacheCount
  rw [asum_append]
  rfl

theorem cacheCount_insertIfAbsent_empty (rc : ResultCache) (e : EntryID) (uid : Nat) :
    cacheCount (insertIfAbsent rc e []) uid = cacheCount rc uid := by
  unfold insertIfAbsent
  split_ifs
  · rfl
  · rw [cacheCount_append_single]
    rfl

theorem wf_insertIfAbsent_empty (rc : ResultCache) (e : EntryID)
    (hwf : CacheWF rc) : CacheWF (insertIfAbsent rc e []) := by
  unfold insertIfAbsent
  split_ifs with hpres
  · exact hwf
  · have habs : e ∉ rc.map Prod.fst := by
      rw [← alookup_eq_none_iff]
      rcases halk : alookup rc e with _ | v
      · rfl
      · rw [halk] at hpres
        simp at hpres
    constructor
    · rw [List.map_append, List.nodup_append]
      refine ⟨hwf.1, by simp, ?_⟩
      intro a ha hb
      simp at hb
      rw [hb] at ha
      exact habs ha
    · intro p hp
      rcases List.mem_append.1 hp with hp1 | hp2
      · exact hwf.2 p hp1
      · simp at hp2
        rw [hp2]
        simp

theorem wf_start_tile_update (rc : ResultCache) (e : EntryID) (t : TileID)
    (cache : TileCache) (hwf : CacheWF rc) (h1 : alookup rc e = some cache)
    (h2 : alookup cache t = none) :
    CacheWF (modifyA rc e (fun c => c ++ [(t, [])])) := by
  constructor
  · rw [modifyA_map_fst]
    exact hwf.1
  · intro p hp
    rcases mem_modifyA rc e _ p hp with ⟨hmem, _⟩ | ⟨w, hmem, heq⟩
    · exact hwf.2 p hmem
    · have hw : w = cache := alookup_unique rc e cache w hwf.1 h1 hmem
      rw [heq, hw]
      have hnd : (cache.map Prod.fst).Nodup := hwf.2 (e, cache) (alookup_mem rc e cache h1)
      have habs : t ∉ cache.map Prod.fst := (alookup_eq_none_iff cache t).1 h2
      simp only [List.map_append, List.map_cons, List.map_nil]
      rw [List.nodup_append]
      refine ⟨hnd, by simp, ?_⟩
      intro a ha hb
      simp at hb
      rw [hb] at ha
      exact habs ha

theorem count_start_tile_update (rc : ResultCache) (e : EntryID) (t : TileID)
    (cache : TileCache) (uid : Nat) (hnd : (rc.map Prod.fst).Nodup)
    (h1 : alookup rc e = some cache) :
    cacheCount (modifyA rc e (fun c => c ++ [(t, [])])) uid = cacheCount rc uid := by
  have key := asum_modifyA rc e (fun c => c ++ [(t, [])]) (fun c => tileCount c uid)
    hnd cache h1
  have happ : tileCount (cache ++ [(t, [])]) uid = tileCount cache uid := by
    rw [tileCount_append_single]
    simp [bucketHas]
  simp only [] at key
  rw [happ] at key
  unfold cacheCount
  omega

theorem wf_insert_update (rc : ResultCache) (e : EntryID) (t : TileID) (b2 : Bucket)
    (hwf : CacheWF rc) :
    CacheWF (modifyA rc e (fun c => modifyA c t (fun _ => b2))) := by
  constructor
  · rw [modifyA_map_fst]
    exact hwf.1
  · intro p hp
    rcases mem_modifyA rc e _ p hp with ⟨hmem, _⟩ | ⟨w, hmem, heq⟩
    · exact hwf.2 p hmem
    · rw [heq]
      show ((modifyA w t (fun _ => b2)).map Prod.fst).Nodup
      rw [modifyA_map_fst]
      exact hwf.2 (e, w) hmem

theorem count_insert_update (rc : ResultCache) (e : EntryID) (t : TileID)
    (cache : TileCache) (bucket b2 : Bucket) (uid : Nat)
    (hwf : CacheWF rc) (h1 : alookup rc e = some cache)
    (h2 : alookup cache t = some bucket) :
    cacheCount (modifyA rc e (fun c => modifyA c t (fun _ => b2))) uid +
      (if bucketHas bucket uid then 1 else 0) =
    cacheCount rc uid + (if bucketHas b2 uid then 1 else 0) := by
  have hndc : (cache.map Prod.fst).Nodup := hwf.2 (e, cache) (alookup_mem rc e cache h1)
  have keyInner := asum_modifyA cache t (fun _ => b2)
    (fun b => if bucketHas b uid then 1 else 0) hndc bucket h2
  have keyOuter := asum_modifyA rc e (fun c => modifyA c t (fun _ => b2))
    (fun c => tileCount c uid) hwf.1 cache h1
  simp only [] at keyInner keyOuter
  unfold cacheCount tileCount
  unfold tileCount at keyOuter
  omega

theorem alookup_of_bucketHas_false (b : Bucket) (uid : Nat)
    (h : bucketHas b uid = false) : alookup b uid = none := by
  rcases halk : alookup b uid with _ | v
  · rfl
  · rw [bucketHas, halk] at h
    simp at h

theorem count_insert_update_new (rc : ResultCache) (e : EntryID) (t : TileID)
    (cache : TileCache) (bucket : Bucket) (uid : Nat) (it : SearchCacheItem)
    (hwf : CacheWF rc) (h1 : alookup rc e = some cache)
    (h2 : alookup cache t = some bucket) (hzero : cacheCount rc uid = 0) :
    cacheCount (modifyA rc e (fun c => modifyA c t
      (fun _ => bucket ++ [(uid, it)]))) uid = 1 := by
  have hb : bucketHas bucket uid = false :=
    cacheCount_zero_bucketHas rc uid hzero e cache h1 t bucket h2
  have hb2 : bucketHas (bucket ++ [(uid, it)]) uid = true := by
    rw [bucketHas, alookup_append_of_none bucket [(uid, it)] uid
      (alookup_of_bucketHas_false bucket uid hb), alookup_singleton_self]
    rfl
  have key := count_insert_update rc e t cache bucket (bucket ++ [(uid, it)]) uid
    hwf h1 h2
  rw [hb, hb2, hzero] at key
  simpa using key

theorem count_insert_update_other (rc : ResultCache) (e : EntryID) (t : TileID)
    (cache : TileCache) (bucket : Bucket) (uid uid0 : Nat) (it : SearchCacheItem)
    (hwf : CacheWF rc) (h1 : alookup rc e = some cache)
    (h2 : alookup cache t = some bucket) (hne : uid ≠ uid0) :
    cacheCount (modifyA rc e (fun c => modifyA c t
      (fun _ => bucket ++ [(uid0, it)]))) uid = cacheCount rc uid := by
  have hbsame : bucketHas (bucket ++ [(uid0, it)]) uid = bucketHas bucket uid := by
    rcases halk : alookup bucket uid with _ | v
    · rw [bucketHas, alookup_append_of_none bucket [(uid0, it)] uid halk,
        alookup_singleton_ne uid0 uid it (fun hc => hne hc.symm), bucketHas, halk]
    · rw [bucketHas, alookup_append_of_some bucket [(uid0, it)] uid v halk,
        bucketHas, halk]
  have key := count_insert_update rc e t cache bucket (bucket ++ [(uid0, it)]) uid
    hwf h1 h2
  rw [hbsame] at key
  omega

/-- Every search-cache operation preserves key uniqueness and the
flat-set / bucket-count invariant. -/
theorem applySOp_preserves_search (op : SOp) (s s2 : SearchState)
    (h : applySOp op s = some s2)
    (hwf : CacheWF s.result_cache) (hinv : SearchInv s) :
    CacheWF s2.result_cache ∧ SearchInv s2 := by
  cases op
  case clear =>
    rw [applySOp] at h
    cases h
    constructor
    · exact ⟨by simp [SearchState.clear], by intro p hp; simp [SearchState.clear] at hp⟩
    · intro uid
      refine ⟨fun hmem => ?_, fun _ => rfl⟩
      simp [SearchState.clear] at hmem
  case ensure cx =>
    rw [applySOp] at h
    cases h
    rcases ensure_caches_dichotomy s cx with ⟨h1, h2, _⟩ | ⟨h1, h2, _⟩
    · constructor
      · rw [h2]
        exact ⟨by simp, by intro p hp; simp at hp⟩
      · intro uid
        refine ⟨fun hmem => ?_, fun _ => ?_⟩
        · rw [h1] at hmem
          simp at hmem
        · rw [h2]
          rfl
    · constructor
      · rw [h2]
        exact hwf
      · intro uid
        rw [h1, h2]
        exact hinv uid
  case startEntry e =>
    rw [applySOp, SearchState.start_entry] at h
    split_ifs at h <;> cases h
    · exact ⟨hwf, hinv⟩
    · refine ⟨wf_insertIfAbsent_empty s.result_cache e hwf, ?_⟩
      intro uid
      refine ⟨fun hmem => ?_, fun hmem => ?_⟩
      · exact (cacheCount_insertIfAbsent_empty s.result_cache e uid).trans
          ((hinv uid).1 hmem)
      · exact (cacheCount_insertIfAbsent_empty s.result_cache e uid).trans
          ((hinv uid).2 hmem)
  case startTile e t =>
    rw [applySOp, SearchState.start_tile] at h
    split_ifs at h
    · simp only [Option.map_some'] at h
      cases h
      exact ⟨hwf, hinv⟩
    · rcases halk : alookup s.result_cache e with _ | cache <;>
        simp only [halk, Option.map_some', Option.map_none'] at h
      · exact Option.noConfusion h
      · rcases halk2 : alookup cache t with _ | bucket <;>
          simp only [halk2, Option.map_some', Option.map_none'] at h <;> cases h
        · refine ⟨wf_start_tile_update s.result_cache e t cache hwf halk halk2, ?_⟩
          intro uid
          refine ⟨fun hmem => ?_, fun hmem => ?_⟩
          · exact (count_start_tile_update s.result_cache e t cache uid hwf.1
              halk).trans ((hinv uid).1 hmem)
          · exact (count_start_tile_update s.result_cache e t cache uid hwf.1
              halk).trans ((hinv uid).2 hmem)
        · exact ⟨hwf, hinv⟩
  case insertItem e t irow item =>
    rw [applySOp, SearchState.insert] at h
    split_ifs at h with hcap hmem0
    · cases h
      exact ⟨hwf, hinv⟩
    · cases h
      exact ⟨hwf, hinv⟩
    · simp only [] at h
      rcases halk : alookup s.result_cache e with _ | cache <;> simp only [halk] at h
      · exact Option.noConfusion h
      · rcases halk2 : alookup cache t with _ | bucket <;> simp only [halk2] at h
        · exact Option.noConfusion h
        · have hzero : cacheCount s.result_cache item.item_uid = 0 :=
            (hinv item.item_uid).2 hmem0
          have hb : bucketHas bucket item.item_uid = false :=
            cacheCount_zero_bucketHas s.result_cache item.item_uid hzero e cache halk
              t bucket halk2
          rw [alookup_of_bucketHas_false bucket item.item_uid hb] at h
          simp only [Option.isSome_none, Bool.false_eq_true, if_false] at h
          cases h
          refine ⟨wf_insert_update s.result_cache e t _ hwf, ?_⟩
          intro uid
          by_cases huid : uid = item.item_uid
          · subst huid
            refine ⟨fun _ => ?_, fun hns => ?_⟩
            · exact count_insert_update_new s.result_cache e t cache bucket item.item_uid
                ⟨item.item_uid, irow, item.original_interval, item.title⟩ hwf halk halk2
                hzero
            · exact absurd (Finset.mem_insert_self item.item_uid s.result_set) hns
          · refine ⟨fun hmem => ?_, fun hns => ?_⟩
            · refine (count_insert_update_other s.result_cache e t cache bucket uid
                item.item_uid ⟨item.item_uid, irow, item.original_interval, item.title⟩
                hwf halk halk2 huid).trans ((hinv uid).1 ?_)
              rcases Finset.mem_insert.1 hmem with hc | hc
              · exact absurd hc huid
              · exact hc
            · refine (count_insert_update_other s.result_cache e t cache bucket uid
                item.item_uid ⟨item.item_uid, irow, item.original_interval, item.title⟩
                hwf halk halk2 huid).trans ((hinv uid).2 ?_)
              exact fun hc => hns (Finset.mem_insert_of_mem hc)

/-- C7: for every state reachable from the fresh search state by any
sequence of `clear`, `ensure_valid_cache`, `start_entry`, `start_tile` and
`insert` operations (a panicking operation yields no state), an item
identifier is in the flat result set iff exactly one (entry, tile) bucket
of the nested result cache holds it. -/
theorem C7_result_set_matches_cache :
    ∀ (tid : FieldID) (ops : List SOp) (s : SearchState),
      runSOps ops (SearchState.new tid) = some s →
      ∀ uid, uid ∈ s.result_set ↔ cacheCount s.result_cache uid = 1 := by
  intro tid ops
  have key : ∀ (s0 s : SearchState), CacheWF s0.result_cache → SearchInv s0 →
      runSOps ops s0 = some s → CacheWF s.result_cache ∧ SearchInv s := by
    induction ops with
    | nil =>
      intro s0 s hwf hinv h
      rw [runSOps] at h
      cases h
      exact ⟨hwf, hinv⟩
    | cons op ops ih =>
      intro s0 s hwf hinv h
      rw [runSOps] at h
      rcases happ : applySOp op s0 with _ | s1 <;> rw [happ] at h
      · simp at h
      · rw [Option.some_bind] at h
        rcases applySOp_preserves_search op s0 s1 happ hwf hinv with ⟨hwf1, hinv1⟩
        exact ih s1 s hwf1 hinv1 h
  intro s h uid
  have hinit_wf : CacheWF (SearchState.new tid).result_cache :=
    ⟨by simp [SearchState.new], by intro p hp; simp [SearchState.new] at hp⟩
  have hinit_inv : SearchInv (SearchState.new tid) := by
    intro u
    exact ⟨fun hm => by simp [SearchState.new] at hm, fun _ => rfl⟩
  rcases key (SearchState.new tid) s hinit_wf hinit_inv h with ⟨_, hinv⟩
  constructor
  · exact (hinv uid).1
  · intro hc
    by_cases hm : uid ∈ s.result_set
    · exact hm
    · have := (hinv uid).2 hm
      omega

/-- C7 witness: the invariant instantiated on the state reached by running
a single `clear` from the fresh state. -/
theorem C7_result_set_matches_cache_witness :
    5 ∈ (SearchState.new 0).result_set ↔
      cacheCount (SearchState.new 0).result_cache 5 = 1 :=
  C7_result_set_matches_cache 0 [SOp.clear] (SearchState.new 0) rfl 5

/-! ## Interval navigation history (app.rs, `ProfApp::update_view_interval`) -/

/-- Lines 1751–1755 of app.rs: truncate both stacks to `index + 1` (with the
saved original index), push the new state, and point the index at the new
last element. -/
def pushTruncated (history : IntervalState) (index : Nat) (interval : Interval)
    (origin : IntervalOrigin) : IntervalState :=
  let levels := history.levels.take (index + 1) ++ [interval]
  let origins := history.origins.take (index + 1) ++ [origin]
  ⟨levels, origins, levels.length - 1⟩

/-- `ProfApp::update_view_interval`: set the view interval; when the history
is non-empty and both the origin at the current index and the new origin
are `Pan`, first drop the stacks back to `index` (so the push replaces the
previous Pan); then truncate any redo states and push. Indexing
`origins[index]` out of bounds is a panic (`none`). -/
def update_view_interval (cx : Context) (interval : Interval)
    (origin : IntervalOrigin) : Option Context :=
  let cx := { cx with view_interval := interval }
  let history := cx.view_interval_history
  let index := history.index
  if 0 < history.levels.length then
    match history.origins.get? index with
    | none => none
    | some o =>
      let history2 :=
        if o = origin ∧ origin = IntervalOrigin.Pan then
          { history with
            levels := history.levels.take index,
            origins := history.origins.take index }
        else history
      some { cx with view_interval_history := pushTruncated history2 index interval origin }
  else
    some { cx with view_interval_history := pushTruncated history index interval origin }

/-- Context at startup: default view interval, empty history. -/
def contextInitial : Context := ⟨⟨0, 0⟩, IntervalState.initial⟩

/-- C8: `update_view_interval` appends a new (interval, origin) state after
discarding the redo states past the current index, except that when both
the origin at the current index and the new origin are `Pan` the entry at
the current index is replaced instead (first conjunct); on an empty
history it just pushes the single new state (second conjunct); and pushing
(I1, Pan), (I2, Pan), (I3, Zoom) onto an empty history leaves exactly 2
history levels (third conjunct). -/
theorem C8_update_view_interval_policy :
    (∀ (cx : Context) (interval : Interval) (origin : IntervalOrigin),
      cx.view_interval_history.index < cx.view_interval_history.levels.length →
      cx.view_interval_history.index < cx.view_interval_history.origins.length →
      (cx.view_interval_history.origins.get? cx.view_interval_history.index =
          some IntervalOrigin.Pan ∧ origin = IntervalOrigin.Pan →
        ∃ cx2, update_view_interval cx interval origin = some cx2 ∧
          cx2.view_interval_history.levels =
            cx.view_interval_history.levels.take cx.view_interval_history.index ++
              [interval] ∧
          cx2.view_interval_history.origins =
            cx.view_interval_history.origins.take cx.view_interval_history.index ++
              [origin]) ∧
      (¬(cx.view_interval_history.origins.get? cx.view_interval_history.index =
          some IntervalOrigin.Pan ∧ origin = IntervalOrigin.Pan) →
        ∃ cx2, update_view_interval cx interval origin = some cx2 ∧
          cx2.view_interval_history.levels =
            cx.view_interval_history.levels.take
              (cx.view_interval_history.index + 1) ++ [interval] ∧
          cx2.view_interval_history.origins =
            cx.view_interval_history.origins.take
              (cx.view_interval_history.index + 1) ++ [origin])) ∧
    (∀ (cx : Context) (interval : Interval) (origin : IntervalOrigin),
      cx.view_interval_history.levels = [] →
      cx.view_interval_history.origins = [] →
      update_view_interval cx interval origin =
        some ⟨interval, ⟨[interval], [origin], 0⟩⟩) ∧
    (∀ I1 I2 I3 : Interval,
      (update_view_interval contextInitial I1 IntervalOrigin.Pan).bind
        (fun c => (update_view_interval c I2 IntervalOrigin.Pan).bind
          (fun c2 => update_view_interval c2 I3 IntervalOrigin.Zoom)) =
        some ⟨I3, ⟨[I2, I3], [IntervalOrigin.Pan, IntervalOrigin.Zoom], 1⟩⟩) := by
  refine ⟨?_, ?_, fun I1 I2 I3 => rfl⟩
  · intro cx interval origin
    rcases cx with ⟨vi, ⟨levels, origins, index⟩⟩
    intro h1 h2
    simp only [] at h1 h2 ⊢
    constructor
    · rintro ⟨hget, horig⟩
      subst horig
      have h0 : 0 < levels.length := by omega
      unfold update_view_interval
      simp only [hget, if_pos h0]
      rw [if_pos (⟨trivial, trivial⟩ : True ∧ True)]
      refine ⟨_, rfl, ?_, ?_⟩
      · show (levels.take index).take (index + 1) ++ [interval] = levels.take index ++ [interval]
        rw [List.take_take, min_eq_right (Nat.le_succ index)]
      · show (origins.take index).take (index + 1) ++ _ = origins.take index ++ _
        rw [List.take_take, min_eq_right (Nat.le_succ index)]
    · intro hno
      unfold update_view_interval
      rcases hget : origins.get? index with _ | o
      · rw [List.get?_eq_none] at hget
        omega
      · have h0 : 0 < levels.length := by omega
        simp only [hget, if_pos h0]
        rw [if_neg (fun hc =>
          hno ⟨hget.trans (congrArg some (hc.1.trans hc.2)), hc.2⟩)]
        exact ⟨_, rfl, rfl, rfl⟩
  · intro cx interval origin
    rcases cx with ⟨vi, ⟨levels, origins, index⟩⟩
    intro h1 h2
    simp only [] at h1 h2
    subst h1
    subst h2
    rfl

/-- C8 witness: a Pan pushed on top of a single Pan entry replaces it. -/
theorem C8_update_view_interval_policy_witness :
    ∃ cx2, update_view_interval
        ⟨⟨0, 1⟩, ⟨[⟨0, 1⟩], [IntervalOrigin.Pan], 0⟩⟩ ⟨0, 2⟩ IntervalOrigin.Pan =
        some cx2 ∧
      cx2.view_interval_history.levels =
        ([⟨0, 1⟩] : List Interval).take 0 ++ [⟨0, 2⟩] ∧
      cx2.view_interval_history.origins =
        ([IntervalOrigin.Pan] : List IntervalOrigin).take 0 ++ [IntervalOrigin.Pan] :=
  ((C8_update_view_interval_policy.1
      ⟨⟨0, 1⟩, ⟨[⟨0, 1⟩], [IntervalOrigin.Pan], 0⟩⟩ ⟨0, 2⟩ IntervalOrigin.Pan
      (by decide) (by decide)).1 ⟨rfl, rfl⟩)

/-- C9: indexing an `EntryID` past its stored length returns `none` for
both `index` and `slot_index` (never a fatal error); within bounds,
`slot_index` is `some i` exactly when the element at that depth is a
non-sentinel slot index `i`, and `none` on the summary sentinel (`index`
classifies the same element as `Slot i` resp. `Summary`). -/
theorem C9_entry_id_indexing :
    ∀ (e : EntryID) (lvl : Nat),
      (e.level ≤ lvl → e.index lvl = none ∧ e.slot_index lvl = none) ∧
      (∀ x : Int, e.path.get? lvl = some x →
        (x = -1 → e.slot_index lvl = none ∧ e.index lvl = some EntryIndex.Summary) ∧
        (0 ≤ x → e.slot_index lvl = some x.toNat ∧
          e.index lvl = some (EntryIndex.Slot x.toNat))) := by
  intro e lvl
  constructor
  · intro h
    have hnone : e.path.get? lvl = none := by
      rw [List.get?_eq_none]
      exact h
    rw [EntryID.index, EntryID.slot_index, hnone]
    exact ⟨rfl, rfl⟩
  · intro x hx
    constructor
    · intro hneg
      subst hneg
      rw [EntryID.slot_index, EntryID.index, hx]
      exact ⟨rfl, rfl⟩
    · intro hpos
      rw [EntryID.slot_index, EntryID.index, hx]
      obtain ⟨n, rfl⟩ := Int.eq_ofNat_of_zero_le hpos
      exact ⟨rfl, rfl⟩

/-- C9 witness: `root().child(2).child(0)` has length 2, so depth 5 is
absent for both accessors; and its depth-0 element is the slot index 2. -/
theorem C9_entry_id_indexing_witness :
    (((EntryID.root.child 2).child 0).index 5 = none ∧
      ((EntryID.root.child 2).child 0).slot_index 5 = none) ∧
    (((EntryID.root.child 2).child 0).slot_index 0 = some 2 ∧
      ((EntryID.root.child 2).child 0).index 0 = some (EntryIndex.Slot 2)) :=
  ⟨(C9_entry_id_indexing ((EntryID.root.child 2).child 0) 5).1 (by decide),
    ((C9_entry_id_indexing ((EntryID.root.child 2).child 0) 0).2 2 rfl).2 (by decide)⟩

/-! ## Per-frame drain write-back (app.rs, `ProfApp::update`) -/

/-- A tile map owned by one entry: TileID → optional payload (`none` =
requested but not yet arrived). -/
abbrev TileMap (ν : Type) := List (TileID × Option ν)

/-- Delivery of one completed tile into an entry's tile map:
`entry.tiles.entry(tile.tile_id).and_modify(|t| *t = Some(tile.data))` —
overwrite the value when the key is present, never insert. -/
def drainWriteTile (tiles : TileMap ν) (tid : TileID) (data : ν) : TileMap ν :=
  modifyA tiles tid (fun _ => some data)

theorem alookup_modifyA_self [DecidableEq κ] (m : List (κ × ν)) (k : κ) (f : ν → ν) :
    alookup (modifyA m k f) k = (alookup m k).map f := by
  induction m with
  | nil => rfl
  | cons p m ih =>
    by_cases hp : p.1 = k
    · rw [modifyA, List.map_cons, if_pos hp]
      rw [alookup_cons, alookup_cons, if_pos hp, if_pos hp]
      rfl
    · rw [modifyA, List.map_cons, if_neg hp]
      rw [alookup_cons, alookup_cons, if_neg hp, if_neg hp]
      exact ih

/-- C10: the drain write-back never inserts keys — the key set is
preserved; a delivered tile whose TileID is not a key of the map leaves
the map completely unchanged; and a present key has its value overwritten
with the arrived payload. -/
theorem C10_drain_writeback_never_inserts :
    ∀ (ν : Type) (tiles : TileMap ν) (tid : TileID) (data : ν),
      ((drainWriteTile tiles tid data).map Prod.fst = tiles.map Prod.fst) ∧
      (alookup tiles tid = none → drainWriteTile tiles tid data = tiles) ∧
      ((alookup tiles tid).isSome = true →
        alookup (drainWriteTile tiles tid data) tid = some (some data)) := by
  intro ν tiles tid data
  refine ⟨modifyA_map_fst tiles tid _, ?_, ?_⟩
  · intro h
    exact modifyA_eq_self_of_not_mem tiles tid _ ((alookup_eq_none_iff tiles tid).1 h)
  · intro h
    rw [drainWriteTile, alookup_modifyA_self]
    rcases halk : alookup tiles tid with _ | v
    · rw [halk] at h
      simp at h
    · rfl

/-- C10 witness: delivering a tile for an absent TileID leaves a one-entry
tile map unchanged. -/
theorem C10_drain_writeback_never_inserts_witness :
    drainWriteTile [(⟨⟨0, 1⟩⟩, (none : Option Nat))] ⟨⟨5, 6⟩⟩ 3 =
      [(⟨⟨0, 1⟩⟩, (none : Option Nat))] :=
  (C10_drain_writeback_never_inserts Nat [(⟨⟨0, 1⟩⟩, none)] ⟨⟨5, 6⟩⟩ 3).2.1 (by decide)

end LPV
